import Mathlib

/-!
Shallow embedding of `musicbot/lib/event_emitter.py` (class `EventEmitter`).

The Python class keeps a `defaultdict(list)` registry mapping event names to
callback lists, an event loop handle, and a set of in-flight asyncio tasks.
We model:

* the registry as a function `String → Option (List Cb)` (a Python dict;
  `none` means the key is absent, `defaultdict` autovivification is made
  explicit at each `[...]` access site of the source);
* callbacks as values of an inductive `Cb` carrying an identity (Python
  function objects compare by identity in `list.remove`) and a behaviour:
  plain synchronous, synchronous-and-raising, coroutine function (body runs
  only when its task is driven by the loop), coroutine function whose body
  raises, a synchronous callback that calls `off` on itself, and the
  `callback_off` closure created by `once`;
* the asyncio machinery as an explicit `pending` queue of scheduled tasks
  plus the `_task_pool` set of task ids; `runTask` models the event loop
  driving one scheduled task to completion and then running its done
  callback (`self._task_pool.discard`);
* observable behaviour as an append-only trace: `dispatch` marks the
  `emit` loop reaching a callback, `call` marks a Python-level call of a
  callback object (for a coroutine function this only creates the
  coroutine object), `run` marks a callback body actually executing,
  `logged` marks `traceback.print_exc()` in `emit`, `scheduled` marks
  `loop.create_task`, and `taskDone`/`taskFailed` mark task completion.

Exceptions are modelled with `Except`; the ghost field `offFailedAbsent`
records the event names on which an `off` call failed while the event was
absent (the only way the registry can come to hold an empty list).
-/

/-- Positional arguments passed to `emit` and forwarded to callbacks
(`*args` in the source; `**kwargs` behaves identically and is elided). -/
abbrev Args := List Nat

/-- Behaviour of a plain (non-wrapper) callback registered with the emitter. -/
inductive Kind where
  | sync
  | syncRaise
  | async
  | asyncRaise
  | offSelf (event : String)
  deriving DecidableEq

/-- A Python callback object: `base id k` is a function object with identity
`id` and behaviour `k`; `wrapper id event inner` is the `callback_off`
closure that `once` creates around `inner` for `event`. -/
inductive Cb where
  | base (id : Nat) (k : Kind)
  | wrapper (id : Nat) (event : String) (inner : Cb)
  deriving DecidableEq

/-- Identity of a callback object. -/
def Cb.id : Cb → Nat
  | .base i _ => i
  | .wrapper i _ _ => i

/-- Whether a callback is a plain `base` callback (not a `once` wrapper). -/
def Cb.isBase : Cb → Bool
  | .base _ _ => true
  | .wrapper _ _ _ => false

/-- `asyncio.iscoroutinefunction`: true exactly for coroutine functions.
The `callback_off` closure made by `once` is an ordinary `def`, hence false
for wrappers even when they wrap a coroutine function. -/
def iscoroutinefunction : Cb → Bool
  | .base _ Kind.async => true
  | .base _ Kind.asyncRaise => true
  | _ => false

/-- The value `on`/`off`/`once` return on success: the emitter itself
(`return self` in the source, enabling method chaining). -/
inductive PyRet where
  | self
  deriving DecidableEq

/-- Result of calling a callback object: `ret i` is the value returned by a
synchronous body with identity `i`; `coro i` is the coroutine object that
calling a coroutine function merely creates (without running its body). -/
inductive Value where
  | ret (id : Nat)
  | coro (id : Nat)
  deriving DecidableEq

/-- Trace events recording the observable behaviour of a run. -/
inductive TE where
  | dispatch (cbId : Nat) (args : Args)
  | call (cbId : Nat) (args : Args)
  | run (cbId : Nat) (args : Args)
  | logged (cbId : Nat)
  | scheduled (taskId : Nat) (cbId : Nat) (args : Args)
  | taskDone (taskId : Nat)
  | taskFailed (taskId : Nat)
  deriving DecidableEq

/-- The state of one `EventEmitter` object plus the surrounding asyncio
runtime bookkeeping needed to observe it. -/
structure EmitterState where
  events : String → Option (List Cb)
  taskPool : List Nat
  pending : List (Nat × Cb × Args)
  nextTask : Nat
  trace : List TE
  offFailedAbsent : List String

/-- Store a key in the registry (Python dict assignment / autovivification). -/
def setk (f : String → Option (List Cb)) (k : String) (v : List Cb) :
    String → Option (List Cb) :=
  fun x => if x = k then some v else f x

/-- Delete a key from the registry (`del self._events[event]`). -/
def delk (f : String → Option (List Cb)) (k : String) :
    String → Option (List Cb) :=
  fun x => if x = k then none else f x

namespace EventEmitter

/-- `EventEmitter.__init__`: empty registry, fresh loop, empty task pool. -/
def init : EmitterState :=
  { events := fun _ => none
    taskPool := []
    pending := []
    nextTask := 0
    trace := []
    offFailedAbsent := [] }

/-- `EventEmitter.off`: `self._events[event].remove(callback)` — the
`defaultdict` access creates an empty list when `event` is absent, and
`list.remove` then raises `ValueError`, leaving that empty list behind
(recorded in the ghost field `offFailedAbsent`).  On success the first
occurrence of `callback` is removed and the key is deleted when the list
becomes empty; the emitter (`self`) is returned. -/
def off (s : EmitterState) (e : String) (cb : Cb) :
    EmitterState × Except Unit PyRet :=
  match s.events e with
  | none =>
      ({ s with events := setk s.events e []
                offFailedAbsent := s.offFailedAbsent ++ [e] }, .error ())
  | some l =>
      if cb ∈ l then
        let l2 := l.erase cb
        if l2 = [] then ({ s with events := delk s.events e }, .ok .self)
        else ({ s with events := setk s.events e l2 }, .ok .self)
      else (s, .error ())

/-- `EventEmitter.on`: append `callback` to the (possibly autovivified)
list for `event` and return the emitter. -/
def «on» (s : EmitterState) (e : String) (cb : Cb) : EmitterState × PyRet :=
  ({ s with events := setk s.events e (((s.events e).getD []) ++ [cb]) }, .self)

/-- `EventEmitter.once`: register the `callback_off` wrapper via `on`.
`wid` is the identity of the fresh closure object. -/
def once (s : EmitterState) (e : String) (wid : Nat) (cb : Cb) :
    EmitterState × PyRet :=
  «on» s e (.wrapper wid e cb)

/-- Calling a callback object with the given arguments (`cb(*args)`).
A coroutine function only creates a coroutine object; the `callback_off`
wrapper deregisters itself from its event and then delegates to the wrapped
callback, returning its result; exceptions escape as `Except.error`. -/
def callCb : EmitterState → Cb → Args → EmitterState × Except Unit Value
  | s, .base i Kind.sync, args =>
      ({ s with trace := s.trace ++ [TE.call i args, TE.run i args] },
        .ok (.ret i))
  | s, .base i Kind.syncRaise, args =>
      ({ s with trace := s.trace ++ [TE.call i args, TE.run i args] },
        .error ())
  | s, .base i Kind.async, args =>
      ({ s with trace := s.trace ++ [TE.call i args] }, .ok (.coro i))
  | s, .base i Kind.asyncRaise, args =>
      ({ s with trace := s.trace ++ [TE.call i args] }, .ok (.coro i))
  | s, .base i (Kind.offSelf e), args =>
      let s0 := { s with trace := s.trace ++ [TE.call i args] }
      match off s0 e (.base i (Kind.offSelf e)) with
      | (s1, Except.ok _) =>
          ({ s1 with trace := s1.trace ++ [TE.run i args] }, .ok (.ret i))
      | (s1, Except.error _) => (s1, .error ())
  | s, .wrapper i e inner, args =>
      let s0 := { s with trace := s.trace ++ [TE.call i args] }
      match off s0 e (.wrapper i e inner) with
      | (s1, Except.ok _) => callCb s1 inner args
      | (s1, Except.error _) => (s1, .error ())

/-- One iteration of the `for cb in list(self._events[event])` loop in
`emit`: a coroutine function is wrapped in a task added to `_task_pool`
with a done callback that discards it; any other callback is called
in-line, with exceptions caught and logged (`traceback.print_exc`). -/
def emitStep (s : EmitterState) (args : Args) (cb : Cb) : EmitterState :=
  let s0 := { s with trace := s.trace ++ [TE.dispatch cb.id args] }
  if iscoroutinefunction cb then
    match callCb s0 cb args with
    | (s1, _) =>
        let t := s1.nextTask
        { s1 with trace := s1.trace ++ [TE.scheduled t cb.id args]
                  taskPool := s1.taskPool ++ [t]
                  pending := s1.pending ++ [(t, cb, args)]
                  nextTask := t + 1 }
  else
    match callCb s0 cb args with
    | (s1, Except.ok _) => s1
    | (s1, Except.error _) =>
        { s1 with trace := s1.trace ++ [TE.logged cb.id] }

/-- The `emit` loop over a fixed snapshot of the callback list. -/
def emitList (s : EmitterState) (cbs : List Cb) (args : Args) : EmitterState :=
  cbs.foldl (fun acc cb => emitStep acc args cb) s

/-- `EventEmitter.emit`: return immediately when `event` is not a key of
the registry, otherwise iterate a shallow copy of its callback list. -/
def emit (s : EmitterState) (e : String) (args : Args) : EmitterState :=
  match s.events e with
  | none => s
  | some snapshot => emitList s snapshot args

/-- The event loop drives the scheduled task `tid` to completion: the
coroutine body runs (raising for `asyncRaise`, with the exception captured
by the task object — the emitter logs nothing), then the done callback
`self._task_pool.discard` removes the task id from the pool. -/
def runTask (s : EmitterState) (tid : Nat) : EmitterState :=
  match s.pending.find? (fun p => p.1 == tid) with
  | none => s
  | some (_, cb, args) =>
      let s1 := { s with pending := s.pending.filter (fun p => p.1 != tid) }
      let s2 :=
        match cb with
        | .base i Kind.asyncRaise =>
            { s1 with trace := s1.trace ++ [TE.run i args, TE.taskFailed tid] }
        | .base i _ =>
            { s1 with trace := s1.trace ++ [TE.run i args, TE.taskDone tid] }
        | .wrapper i _ _ =>
            { s1 with trace := s1.trace ++ [TE.run i args, TE.taskDone tid] }
      { s2 with taskPool := s2.taskPool.filter (fun t => t != tid) }

end EventEmitter

/-- A client-visible operation on the emitter (plus the loop step that runs
one scheduled task). -/
inductive Op where
  | on (e : String) (cb : Cb)
  | off (e : String) (cb : Cb)
  | once (e : String) (wid : Nat) (cb : Cb)
  | emit (e : String) (args : Args)
  | runTask (tid : Nat)

/-- Apply one operation to the state (a raising `off` leaves its state
change behind; the exception goes to the caller). -/
def applyOp (s : EmitterState) : Op → EmitterState
  | .on e cb => (EventEmitter.«on» s e cb).1
  | .off e cb => (EventEmitter.off s e cb).1
  | .once e wid cb => (EventEmitter.once s e wid cb).1
  | .emit e args => EventEmitter.emit s e args
  | .runTask tid => EventEmitter.runTask s tid

/-- Run a sequence of operations from a fresh emitter. -/
def runOps (ops : List Op) : EmitterState :=
  ops.foldl applyOp EventEmitter.init

/-- The `(callback identity, args)` pairs the `emit` loop reached, in order. -/
def dispatches (tr : List TE) : List (Nat × Args) :=
  tr.filterMap (fun t => match t with
    | TE.dispatch i a => some (i, a)
    | _ => none)

/-- The task ids created by `loop.create_task`, in order. -/
def scheduledIds (tr : List TE) : List Nat :=
  tr.filterMap (fun t => match t with
    | TE.scheduled tid _ _ => some tid
    | _ => none)

/-- How many times the callback object with identity `i` was called. -/
def callsOf (i : Nat) (tr : List TE) : Nat :=
  tr.countP (fun t => match t with
    | TE.call j _ => j == i
    | _ => false)

/-- How many `traceback.print_exc` log events the emitter produced. -/
def loggedCount (tr : List TE) : Nat :=
  tr.countP (fun t => match t with
    | TE.logged _ => true
    | _ => false)

/-- Number of occurrences of callback `c` in the registry list of `e`. -/
def cnt (c : Cb) (e : String) (s : EmitterState) : Nat :=
  ((s.events e).getD []).count c

/-- The registry invariant claimed by the spec: every present event name
maps to a non-empty callback list. -/
def RegNonEmpty (s : EmitterState) : Prop :=
  ∀ e l, s.events e = some l → l ≠ []

/-- Every event name present with an empty list was autovivified by a
failing `off` call on an absent event. -/
def EmptyOnlyAfterFailedOff (s : EmitterState) : Prop :=
  ∀ e l, s.events e = some l → l = [] → e ∈ s.offFailedAbsent

/-! ### Registry helper lemmas -/

theorem setk_self (f : String → Option (List Cb)) (k : String) (v : List Cb) :
    setk f k v k = some v := by
  simp [setk]

theorem setk_ne (f : String → Option (List Cb)) (k : String) (v : List Cb)
    {x : String} (h : x ≠ k) : setk f k v x = f x := by
  simp [setk, h]

theorem delk_self (f : String → Option (List Cb)) (k : String) :
    delk f k k = none := by
  simp [delk]

theorem delk_ne (f : String → Option (List Cb)) (k : String)
    {x : String} (h : x ≠ k) : delk f k x = f x := by
  simp [delk, h]

/-! ### Frame lemmas: which fields each operation leaves untouched -/

theorem off_frame (s : EmitterState) (e : String) (cb : Cb) :
    (EventEmitter.off s e cb).1.trace = s.trace ∧
    (EventEmitter.off s e cb).1.taskPool = s.taskPool ∧
    (EventEmitter.off s e cb).1.pending = s.pending ∧
    (EventEmitter.off s e cb).1.nextTask = s.nextTask := by
  unfold EventEmitter.off
  cases s.events e with
  | none => simp
  | some l =>
    by_cases h : cb ∈ l
    · simp only [h, if_true]
      split <;> simp
    · simp [h]

theorem callCb_frame (cb : Cb) : ∀ (s : EmitterState) (args : Args),
    (EventEmitter.callCb s cb args).1.taskPool = s.taskPool ∧
    (EventEmitter.callCb s cb args).1.pending = s.pending ∧
    (EventEmitter.callCb s cb args).1.nextTask = s.nextTask := by
  induction cb with
  | base i k =>
    intro s args
    cases k with
    | offSelf e =>
      simp only [EventEmitter.callCb]
      rcases hoff : EventEmitter.off
          { s with trace := s.trace ++ [TE.call i args] } e
          (Cb.base i (Kind.offSelf e)) with ⟨s1, r⟩
      have hfr := off_frame { s with trace := s.trace ++ [TE.call i args] } e
        (Cb.base i (Kind.offSelf e))
      rw [hoff] at hfr
      cases r <;> simp_all
    | _ => simp [EventEmitter.callCb]
  | wrapper i e inner ih =>
    intro s args
    simp only [EventEmitter.callCb]
    rcases hoff : EventEmitter.off
        { s with trace := s.trace ++ [TE.call i args] } e
        (Cb.wrapper i e inner) with ⟨s1, r⟩
    have hfr := off_frame { s with trace := s.trace ++ [TE.call i args] } e
      (Cb.wrapper i e inner)
    rw [hoff] at hfr
    cases r with
    | ok v =>
      have := ih s1 args
      simp_all
    | error err => simp_all


/-! ### Structural lemmas for the trace observables -/

theorem dispatches_nil : dispatches [] = [] := rfl

theorem dispatches_append (t1 t2 : List TE) :
    dispatches (t1 ++ t2) = dispatches t1 ++ dispatches t2 := by
  simp [dispatches]

theorem dispatches_cons (x : TE) (t : List TE) :
    dispatches (x :: t) =
      (match x with | TE.dispatch i a => [(i, a)] | _ => []) ++ dispatches t := by
  cases x <;> simp [dispatches]

theorem scheduledIds_nil : scheduledIds [] = [] := rfl

theorem scheduledIds_append (t1 t2 : List TE) :
    scheduledIds (t1 ++ t2) = scheduledIds t1 ++ scheduledIds t2 := by
  simp [scheduledIds]

theorem scheduledIds_cons (x : TE) (t : List TE) :
    scheduledIds (x :: t) =
      (match x with | TE.scheduled tid _ _ => [tid] | _ => []) ++ scheduledIds t := by
  cases x <;> simp [scheduledIds]

theorem loggedCount_nil : loggedCount [] = 0 := rfl

theorem loggedCount_append (t1 t2 : List TE) :
    loggedCount (t1 ++ t2) = loggedCount t1 + loggedCount t2 := by
  simp [loggedCount]

theorem loggedCount_cons (x : TE) (t : List TE) :
    loggedCount (x :: t) =
      (match x with | TE.logged _ => 1 | _ => 0) + loggedCount t := by
  cases x <;> simp [loggedCount, List.countP_cons]
  omega

theorem callsOf_nil (i : Nat) : callsOf i [] = 0 := rfl

theorem callsOf_append (i : Nat) (t1 t2 : List TE) :
    callsOf i (t1 ++ t2) = callsOf i t1 + callsOf i t2 := by
  simp [callsOf]

theorem callsOf_cons (i : Nat) (x : TE) (t : List TE) :
    callsOf i (x :: t) =
      (match x with | TE.call j _ => if j = i then 1 else 0 | _ => 0) + callsOf i t := by
  cases x with
  | call j a =>
    by_cases h : j = i <;> simp [callsOf, List.countP_cons, h]
    omega
  | _ => simp [callsOf, List.countP_cons]

/-! ### Trace shape lemmas -/

theorem callCb_trace (cb : Cb) : ∀ (s : EmitterState) (args : Args),
    ∃ t, (EventEmitter.callCb s cb args).1.trace = s.trace ++ t ∧
      dispatches t = [] ∧ scheduledIds t = [] ∧ loggedCount t = 0 := by
  induction cb with
  | base i k =>
    intro s args
    cases k with
    | offSelf e =>
      simp only [EventEmitter.callCb]
      rcases hoff : EventEmitter.off
          { s with trace := s.trace ++ [TE.call i args] } e
          (Cb.base i (Kind.offSelf e)) with ⟨s1, r⟩
      have hfr := off_frame { s with trace := s.trace ++ [TE.call i args] } e
        (Cb.base i (Kind.offSelf e))
      rw [hoff] at hfr
      simp at hfr
      cases r with
      | ok v =>
        exact ⟨[TE.call i args, TE.run i args], by
          simp [hfr.1, dispatches, scheduledIds, loggedCount]⟩
      | error err =>
        exact ⟨[TE.call i args], by
          simp [hfr.1, dispatches, scheduledIds, loggedCount]⟩
    | sync =>
      exact ⟨[TE.call i args, TE.run i args], by
        simp [EventEmitter.callCb, dispatches, scheduledIds, loggedCount]⟩
    | syncRaise =>
      exact ⟨[TE.call i args, TE.run i args], by
        simp [EventEmitter.callCb, dispatches, scheduledIds, loggedCount]⟩
    | async =>
      exact ⟨[TE.call i args], by
        simp [EventEmitter.callCb, dispatches, scheduledIds, loggedCount]⟩
    | asyncRaise =>
      exact ⟨[TE.call i args], by
        simp [EventEmitter.callCb, dispatches, scheduledIds, loggedCount]⟩
  | wrapper i e inner ih =>
    intro s args
    simp only [EventEmitter.callCb]
    rcases hoff : EventEmitter.off
        { s with trace := s.trace ++ [TE.call i args] } e
        (Cb.wrapper i e inner) with ⟨s1, r⟩
    have hfr := off_frame { s with trace := s.trace ++ [TE.call i args] } e
      (Cb.wrapper i e inner)
    rw [hoff] at hfr
    simp at hfr
    cases r with
    | ok v =>
      obtain ⟨t, ht, hd, hs, hl⟩ := ih s1 args
      refine ⟨[TE.call i args] ++ t, ?_, ?_, ?_, ?_⟩
      · rw [ht, hfr.1]; simp
      · simp [dispatches] at hd ⊢; exact hd
      · simp [scheduledIds] at hs ⊢; exact hs
      · simp [loggedCount] at hl ⊢; exact hl
    | error err =>
      exact ⟨[TE.call i args], by
        simp [hfr.1, dispatches, scheduledIds, loggedCount]⟩

theorem emitStep_spec (s : EmitterState) (args : Args) (cb : Cb) :
    ∃ t, (EventEmitter.emitStep s args cb).trace = s.trace ++ t ∧
      dispatches t = [(cb.id, args)] ∧
      (EventEmitter.emitStep s args cb).taskPool = s.taskPool ++ scheduledIds t ∧
      ∃ p, (EventEmitter.emitStep s args cb).pending = s.pending ++ p := by
  unfold EventEmitter.emitStep
  dsimp only
  obtain ⟨t0, ht, hd, hs0, hl⟩ :=
    callCb_trace cb { s with trace := s.trace ++ [TE.dispatch cb.id args] } args
  obtain ⟨hp, hpe, hn⟩ :=
    callCb_frame cb { s with trace := s.trace ++ [TE.dispatch cb.id args] } args
  rcases hcall : EventEmitter.callCb
      { s with trace := s.trace ++ [TE.dispatch cb.id args] } cb args with ⟨s1, r⟩
  rw [hcall] at ht hp hpe hn
  simp only at ht hp hpe hn
  by_cases hco : iscoroutinefunction cb
  · simp only [hco, if_true]
    refine ⟨[TE.dispatch cb.id args] ++ t0 ++ [TE.scheduled s1.nextTask cb.id args],
      ?_, ?_, ?_, ?_⟩
    · simp [ht]
    · simp [dispatches_append, dispatches_cons, dispatches_nil, hd]
    · simp [scheduledIds_append, scheduledIds_cons, scheduledIds_nil, hs0, hp]
    · exact ⟨[(s1.nextTask, cb, args)], by simp [hpe]⟩
  · simp only [hco, if_false, Bool.false_eq_true]
    cases r with
    | ok v =>
      refine ⟨[TE.dispatch cb.id args] ++ t0, ?_, ?_, ?_, ⟨[], by simp [hpe]⟩⟩
      · simp [ht]
      · simp [dispatches_append, dispatches_cons, dispatches_nil, hd]
      · simp [scheduledIds_append, scheduledIds_cons, scheduledIds_nil, hs0, hp]
    | error err =>
      refine ⟨[TE.dispatch cb.id args] ++ t0 ++ [TE.logged cb.id], ?_, ?_, ?_,
        ⟨[], by simp [hpe]⟩⟩
      · simp [ht]
      · simp [dispatches_append, dispatches_cons, dispatches_nil, hd]
      · simp [scheduledIds_append, scheduledIds_cons, scheduledIds_nil, hs0, hp]

theorem emitList_spec (cbs : List Cb) : ∀ (s : EmitterState) (args : Args),
    ∃ t, (EventEmitter.emitList s cbs args).trace = s.trace ++ t ∧
      dispatches t = cbs.map (fun cb => (cb.id, args)) ∧
      (EventEmitter.emitList s cbs args).taskPool = s.taskPool ++ scheduledIds t ∧
      ∃ p, (EventEmitter.emitList s cbs args).pending = s.pending ++ p := by
  induction cbs with
  | nil =>
    intro s args
    exact ⟨[], by simp [EventEmitter.emitList, dispatches, scheduledIds]⟩
  | cons cb rest ih =>
    intro s args
    obtain ⟨t1, ht1, hd1, hp1, p1, hpe1⟩ := emitStep_spec s args cb
    obtain ⟨t2, ht2, hd2, hp2, p2, hpe2⟩ := ih (EventEmitter.emitStep s args cb) args
    have hstep : EventEmitter.emitList s (cb :: rest) args =
        EventEmitter.emitList (EventEmitter.emitStep s args cb) rest args := rfl
    refine ⟨t1 ++ t2, ?_, ?_, ?_, ⟨p1 ++ p2, ?_⟩⟩
    · rw [hstep, ht2, ht1, List.append_assoc]
    · simp [dispatches] at hd1 hd2 ⊢
      simp [hd1, hd2]
    · rw [hstep, hp2, hp1]
      simp [scheduledIds]
    · rw [hstep, hpe2, hpe1, List.append_assoc]

theorem emit_not_mem (s : EmitterState) (e : String) (args : Args)
    (h : s.events e = none) : EventEmitter.emit s e args = s := by
  unfold EventEmitter.emit
  rw [h]

theorem emit_mem (s : EmitterState) (e : String) (args : Args) (l : List Cb)
    (h : s.events e = some l) :
    EventEmitter.emit s e args = EventEmitter.emitList s l args := by
  unfold EventEmitter.emit
  rw [h]

/-! ### The corrected registry invariant

An empty callback list can appear in the registry, but only on an event on
which some `off` call failed while the event was absent (the `defaultdict`
autovivification in `EventEmitter.off`). -/

theorem flagged_off (s : EmitterState) (e : String) (cb : Cb)
    (h : EmptyOnlyAfterFailedOff s) :
    EmptyOnlyAfterFailedOff (EventEmitter.off s e cb).1 := by
  unfold EventEmitter.off
  cases hev : s.events e with
  | none =>
    intro e2 l2 hl2 hnil
    simp only at hl2 ⊢
    by_cases he2 : e2 = e
    · subst he2; simp
    · rw [setk_ne _ _ _ he2] at hl2
      exact List.mem_append_left _ (h e2 l2 hl2 hnil)
  | some l =>
    by_cases hmem : cb ∈ l
    · simp only [hmem, if_true]
      split
      · intro e2 l2 hl2 hnil
        simp only at hl2
        by_cases he2 : e2 = e
        · subst he2; rw [delk_self] at hl2; exact absurd hl2 (by simp)
        · rw [delk_ne _ _ he2] at hl2; exact h e2 l2 hl2 hnil
      · intro e2 l2 hl2 hnil
        simp only at hl2
        by_cases he2 : e2 = e
        · subst he2
          rw [setk_self] at hl2
          cases hl2
          simp_all
        · rw [setk_ne _ _ _ he2] at hl2; exact h e2 l2 hl2 hnil
    · simp only [hmem, if_false]
      exact h

theorem flagged_on (s : EmitterState) (e : String) (cb : Cb)
    (h : EmptyOnlyAfterFailedOff s) :
    EmptyOnlyAfterFailedOff (EventEmitter.«on» s e cb).1 := by
  intro e2 l2 hl2 hnil
  simp only [EventEmitter.«on»] at hl2
  by_cases he2 : e2 = e
  · subst he2
    rw [setk_self] at hl2
    cases hl2
    simp_all
  · rw [setk_ne _ _ _ he2] at hl2
    exact h e2 l2 hl2 hnil

theorem flagged_once (s : EmitterState) (e : String) (wid : Nat) (cb : Cb)
    (h : EmptyOnlyAfterFailedOff s) :
    EmptyOnlyAfterFailedOff (EventEmitter.once s e wid cb).1 :=
  flagged_on s e (Cb.wrapper wid e cb) h

theorem flagged_callCb (cb : Cb) : ∀ (s : EmitterState) (args : Args),
    EmptyOnlyAfterFailedOff s →
    EmptyOnlyAfterFailedOff (EventEmitter.callCb s cb args).1 := by
  induction cb with
  | base i k =>
    intro s args h
    cases k with
    | offSelf e =>
      simp only [EventEmitter.callCb]
      rcases hoff : EventEmitter.off
          { s with trace := s.trace ++ [TE.call i args] } e
          (Cb.base i (Kind.offSelf e)) with ⟨s1, r⟩
      have hpres := flagged_off { s with trace := s.trace ++ [TE.call i args] } e
        (Cb.base i (Kind.offSelf e)) (by exact h)
      rw [hoff] at hpres
      cases r with
      | ok v => intro e2 l2 hl2 hnil; exact hpres e2 l2 hl2 hnil
      | error err => exact hpres
    | _ => exact fun e2 l2 hl2 hnil => h e2 l2 hl2 hnil
  | wrapper i e inner ih =>
    intro s args h
    simp only [EventEmitter.callCb]
    rcases hoff : EventEmitter.off
        { s with trace := s.trace ++ [TE.call i args] } e
        (Cb.wrapper i e inner) with ⟨s1, r⟩
    have hpres := flagged_off { s with trace := s.trace ++ [TE.call i args] } e
      (Cb.wrapper i e inner) (by exact h)
    rw [hoff] at hpres
    cases r with
    | ok v => exact ih s1 args hpres
    | error err => exact hpres

theorem flagged_emitStep (s : EmitterState) (args : Args) (cb : Cb)
    (h : EmptyOnlyAfterFailedOff s) :
    EmptyOnlyAfterFailedOff (EventEmitter.emitStep s args cb) := by
  unfold EventEmitter.emitStep
  dsimp only
  have hcall := flagged_callCb cb
    { s with trace := s.trace ++ [TE.dispatch cb.id args] } args (by exact h)
  rcases hc : EventEmitter.callCb
      { s with trace := s.trace ++ [TE.dispatch cb.id args] } cb args with ⟨s1, r⟩
  rw [hc] at hcall
  by_cases hco : iscoroutinefunction cb
  · simp only [hco, if_true]
    exact fun e2 l2 hl2 hnil => hcall e2 l2 hl2 hnil
  · simp only [hco, if_false, Bool.false_eq_true]
    cases r with
    | ok v => exact hcall
    | error err => exact fun e2 l2 hl2 hnil => hcall e2 l2 hl2 hnil

theorem flagged_emitList (cbs : List Cb) : ∀ (s : EmitterState) (args : Args),
    EmptyOnlyAfterFailedOff s →
    EmptyOnlyAfterFailedOff (EventEmitter.emitList s cbs args) := by
  induction cbs with
  | nil => intro s args h; exact h
  | cons cb rest ih =>
    intro s args h
    exact ih (EventEmitter.emitStep s args cb) args (flagged_emitStep s args cb h)

theorem flagged_emit (s : EmitterState) (e : String) (args : Args)
    (h : EmptyOnlyAfterFailedOff s) :
    EmptyOnlyAfterFailedOff (EventEmitter.emit s e args) := by
  unfold EventEmitter.emit
  cases hev : s.events e with
  | none => exact h
  | some l => exact flagged_emitList l s args h

theorem flagged_runTask (s : EmitterState) (tid : Nat)
    (h : EmptyOnlyAfterFailedOff s) :
    EmptyOnlyAfterFailedOff (EventEmitter.runTask s tid) := by
  unfold EventEmitter.runTask
  cases hf : s.pending.find? (fun p => p.1 == tid) with
  | none => exact h
  | some entry =>
    rcases entry with ⟨t, cb, args⟩
    cases cb with
    | base i k =>
      cases k <;> exact fun e2 l2 hl2 hnil => h e2 l2 hl2 hnil
    | wrapper i e inner =>
      exact fun e2 l2 hl2 hnil => h e2 l2 hl2 hnil

theorem flagged_applyOp (s : EmitterState) (op : Op)
    (h : EmptyOnlyAfterFailedOff s) :
    EmptyOnlyAfterFailedOff (applyOp s op) := by
  rcases op with ⟨e, cb⟩ | ⟨e, cb⟩ | ⟨e, wid, cb⟩ | ⟨e, args⟩ | tid
  · exact flagged_on s e cb h
  · exact flagged_off s e cb h
  · exact flagged_once s e wid cb h
  · exact flagged_emit s e args h
  · exact flagged_runTask s tid h

theorem flagged_foldl (ops : List Op) : ∀ (s : EmitterState),
    EmptyOnlyAfterFailedOff s →
    EmptyOnlyAfterFailedOff (ops.foldl applyOp s) := by
  induction ops with
  | nil => intro s h; exact h
  | cons op rest ih =>
    intro s h
    exact ih (applyOp s op) (flagged_applyOp s op h)

/-! ### Occurrence-count lemmas: callbacks can only remove registrations
during an `emit` pass (nothing inside a callback calls `on`), so the number
of occurrences of any fixed callback value never grows. -/

theorem off_cnt_le (s : EmitterState) (e2 : String) (y : Cb) (c : Cb)
    (e : String) : cnt c e (EventEmitter.off s e2 y).1 ≤ cnt c e s := by
  unfold EventEmitter.off
  cases hev : s.events e2 with
  | none =>
    by_cases he : e = e2
    · subst he; simp [cnt, setk_self, hev]
    · simp [cnt, setk_ne _ _ _ he]
  | some l =>
    by_cases hmem : y ∈ l
    · simp only [hmem, if_true]
      split
      · by_cases he : e = e2
        · subst he; simp [cnt, delk_self]
        · simp [cnt, delk_ne _ _ he]
      · by_cases he : e = e2
        · subst he
          simp only [cnt, setk_self, hev, Option.getD_some]
          rw [List.count_erase]
          exact Nat.sub_le _ _
        · simp [cnt, setk_ne _ _ _ he]
    · simp [hmem, cnt]

theorem off_cnt_eq (s : EmitterState) (e2 : String) (y : Cb) (c : Cb)
    (e : String) (hne : y ≠ c) :
    cnt c e (EventEmitter.off s e2 y).1 = cnt c e s := by
  unfold EventEmitter.off
  cases hev : s.events e2 with
  | none =>
    by_cases he : e = e2
    · subst he; simp [cnt, setk_self, hev]
    · simp [cnt, setk_ne _ _ _ he]
  | some l =>
    by_cases hmem : y ∈ l
    · simp only [hmem, if_true]
      split
      · by_cases he : e = e2
        · subst he
          simp only [cnt, delk_self, hev, Option.getD_some, Option.getD_none]
          have h0 : l.count c = (l.erase y).count c :=
            (List.count_erase_of_ne (Ne.symm hne) l).symm
          rename_i hnil
          rw [hnil] at h0
          simp at h0
          simp [h0]
        · simp [cnt, delk_ne _ _ he]
      · by_cases he : e = e2
        · subst he
          simp only [cnt, setk_self, hev, Option.getD_some]
          exact List.count_erase_of_ne (Ne.symm hne) l
        · simp [cnt, setk_ne _ _ _ he]
    · simp [hmem, cnt]

theorem callCb_cnt_le (cb : Cb) : ∀ (s : EmitterState) (args : Args)
    (c : Cb) (e : String),
    cnt c e (EventEmitter.callCb s cb args).1 ≤ cnt c e s := by
  induction cb with
  | base i k =>
    intro s args c e
    cases k with
    | offSelf e3 =>
      simp only [EventEmitter.callCb]
      rcases hoff : EventEmitter.off
          { s with trace := s.trace ++ [TE.call i args] } e3
          (Cb.base i (Kind.offSelf e3)) with ⟨s1, r⟩
      have hle := off_cnt_le { s with trace := s.trace ++ [TE.call i args] } e3
        (Cb.base i (Kind.offSelf e3)) c e
      rw [hoff] at hle
      simp only [cnt] at hle ⊢
      cases r <;> simpa using hle
    | _ => simp [EventEmitter.callCb, cnt]
  | wrapper i e2 inner ih =>
    intro s args c e
    simp only [EventEmitter.callCb]
    rcases hoff : EventEmitter.off
        { s with trace := s.trace ++ [TE.call i args] } e2
        (Cb.wrapper i e2 inner) with ⟨s1, r⟩
    have hle := off_cnt_le { s with trace := s.trace ++ [TE.call i args] } e2
      (Cb.wrapper i e2 inner) c e
    rw [hoff] at hle
    simp only [cnt] at hle ⊢
    cases r with
    | ok v => exact Nat.le_trans (by simpa [cnt] using ih s1 args c e) (by simpa using hle)
    | error err => simpa using hle

theorem emitStep_cnt_le (s : EmitterState) (args : Args) (cb : Cb) (c : Cb)
    (e : String) : cnt c e (EventEmitter.emitStep s args cb) ≤ cnt c e s := by
  unfold EventEmitter.emitStep
  dsimp only
  have hle := callCb_cnt_le cb
    { s with trace := s.trace ++ [TE.dispatch cb.id args] } args c e
  rcases hc : EventEmitter.callCb
      { s with trace := s.trace ++ [TE.dispatch cb.id args] } cb args with ⟨s1, r⟩
  rw [hc] at hle
  simp only [cnt] at hle ⊢
  by_cases hco : iscoroutinefunction cb
  · simpa [hco] using hle
  · simp only [hco, if_false, Bool.false_eq_true]
    cases r with
    | ok v => simpa using hle
    | error err => simpa using hle

theorem emitList_cnt_le (cbs : List Cb) : ∀ (s : EmitterState) (args : Args)
    (c : Cb) (e : String),
    cnt c e (EventEmitter.emitList s cbs args) ≤ cnt c e s := by
  induction cbs with
  | nil => intro s args c e; exact Nat.le_refl _
  | cons cb rest ih =>
    intro s args c e
    exact Nat.le_trans (ih (EventEmitter.emitStep s args cb) args c e)
      (emitStep_cnt_le s args cb c e)

theorem callCb_cnt_eq_base (y : Nat) (k : Kind) (s : EmitterState)
    (args : Args) (c : Cb) (e : String) (hne : Cb.base y k ≠ c) :
    cnt c e (EventEmitter.callCb s (Cb.base y k) args).1 = cnt c e s := by
  cases k with
  | offSelf e3 =>
    simp only [EventEmitter.callCb]
    rcases hoff : EventEmitter.off
        { s with trace := s.trace ++ [TE.call y args] } e3
        (Cb.base y (Kind.offSelf e3)) with ⟨s1, r⟩
    have heq := off_cnt_eq { s with trace := s.trace ++ [TE.call y args] } e3
      (Cb.base y (Kind.offSelf e3)) c e hne
    rw [hoff] at heq
    simp only [cnt] at heq ⊢
    cases r <;> simpa using heq
  | _ => simp [EventEmitter.callCb, cnt]

theorem emitStep_cnt_eq_base (s : EmitterState) (args : Args) (y : Nat)
    (k : Kind) (c : Cb) (e : String) (hne : Cb.base y k ≠ c) :
    cnt c e (EventEmitter.emitStep s args (Cb.base y k)) = cnt c e s := by
  unfold EventEmitter.emitStep
  dsimp only
  have heq := callCb_cnt_eq_base y k
    { s with trace := s.trace ++ [TE.dispatch (Cb.base y k).id args] } args c e hne
  rcases hc : EventEmitter.callCb
      { s with trace := s.trace ++ [TE.dispatch (Cb.base y k).id args] }
      (Cb.base y k) args with ⟨s1, r⟩
  rw [hc] at heq
  simp only [cnt] at heq ⊢
  by_cases hco : iscoroutinefunction (Cb.base y k)
  · simpa [hco] using heq
  · simp only [hco, if_false, Bool.false_eq_true]
    cases r with
    | ok v => simpa using heq
    | error err => simpa using heq

theorem emitList_cnt_eq_base (cbs : List Cb) : ∀ (s : EmitterState)
    (args : Args) (c : Cb) (e : String),
    (∀ x ∈ cbs, x.isBase = true) → (∀ x ∈ cbs, x ≠ c) →
    cnt c e (EventEmitter.emitList s cbs args) = cnt c e s := by
  induction cbs with
  | nil => intro s args c e _ _; rfl
  | cons cb rest ih =>
    intro s args c e hbase hne
    have hb := hbase cb (List.mem_cons_self _ _)
    rcases cb with ⟨y, k⟩ | ⟨i, e2, inner⟩
    · have h1 : EventEmitter.emitList s (Cb.base y k :: rest) args =
          EventEmitter.emitList (EventEmitter.emitStep s args (Cb.base y k)) rest args := rfl
      rw [h1, ih _ args c e (fun x hx => hbase x (List.mem_cons_of_mem _ hx))
        (fun x hx => hne x (List.mem_cons_of_mem _ hx))]
      exact emitStep_cnt_eq_base s args y k c e (hne _ (List.mem_cons_self _ _))
    · simp [Cb.isBase] at hb

theorem emitStep_cnt_offSelf_zero (cid : Nat) (e : String) (s : EmitterState)
    (args : Args)
    (h1 : cnt (Cb.base cid (Kind.offSelf e)) e s = 1) :
    cnt (Cb.base cid (Kind.offSelf e)) e
      (EventEmitter.emitStep s args (Cb.base cid (Kind.offSelf e))) = 0 := by
  unfold EventEmitter.emitStep
  dsimp only
  simp only [iscoroutinefunction, if_false, Bool.false_eq_true]
  simp only [EventEmitter.callCb]
  cases hev : s.events e with
  | none => simp [cnt, hev] at h1
  | some l =>
    have hcl : l.count (Cb.base cid (Kind.offSelf e)) = 1 := by
      simpa [cnt, hev] using h1
    have hmem : Cb.base cid (Kind.offSelf e) ∈ l :=
      List.count_pos_iff.1 (by omega)
    have herase : (l.erase (Cb.base cid (Kind.offSelf e))).count
        (Cb.base cid (Kind.offSelf e)) = 0 := by
      rw [List.count_erase_self, hcl]
    unfold EventEmitter.off
    simp only [hev, hmem, if_true]
    by_cases hnil : l.erase (Cb.base cid (Kind.offSelf e)) = []
    · simp [hnil, cnt, delk_self]
    · simp [hnil, cnt, setk_self, herase]

/-! ### Claims -/

/-- Claim C1: `emit(E, args)` invokes exactly the callbacks in `E`'s
registered list at the moment `emit` was called, each receiving the given
arguments, strictly in registration order; if `E` has no registered
callbacks (key absent, or present with an empty list), `emit` returns
immediately with no effect and raises no error (`emit` is total). -/
theorem claim_C1 (s : EmitterState) (e : String) (args : Args) :
    (s.events e = none → EventEmitter.emit s e args = s) ∧
    (s.events e = some [] → EventEmitter.emit s e args = s) ∧
    (∀ l, s.events e = some l →
      dispatches (EventEmitter.emit s e args).trace =
        dispatches s.trace ++ l.map (fun cb => (cb.id, args))) := by
  refine ⟨fun h => emit_not_mem s e args h, fun h => ?_, fun l h => ?_⟩
  · rw [emit_mem s e args [] h]; rfl
  · rw [emit_mem s e args l h]
    obtain ⟨t, ht, hd, _, _⟩ := emitList_spec l s args
    rw [ht, dispatches_append, hd]

theorem claim_C1_witness :
    EventEmitter.emit (runOps [Op.on "e" (Cb.base 1 Kind.sync)]) "z" [3] =
      runOps [Op.on "e" (Cb.base 1 Kind.sync)] ∧
    dispatches (EventEmitter.emit (runOps [Op.on "e" (Cb.base 1 Kind.sync),
        Op.on "e" (Cb.base 2 Kind.async)]) "e" [5]).trace =
      dispatches (runOps [Op.on "e" (Cb.base 1 Kind.sync),
        Op.on "e" (Cb.base 2 Kind.async)]).trace ++
        [Cb.base 1 Kind.sync, Cb.base 2 Kind.async].map
          (fun cb : Cb => (cb.id, ([5] : Args))) :=
  ⟨(claim_C1 (runOps [Op.on "e" (Cb.base 1 Kind.sync)]) "z" [3]).1 (by decide),
   (claim_C1 (runOps [Op.on "e" (Cb.base 1 Kind.sync),
      Op.on "e" (Cb.base 2 Kind.async)]) "e" [5]).2.2
     [Cb.base 1 Kind.sync, Cb.base 2 Kind.async] (by decide)⟩

/-- Claim C2 counterexample: the claimed invariant "every present event
name maps to a non-empty list" is violated in a reachable state: a single
`off("x", cb)` call on a fresh emitter fails, but the `defaultdict` access
has already created the key `"x"` with an empty list. -/
theorem claim_C2_counterexample :
    ¬ RegNonEmpty (runOps [Op.off "x" (Cb.base 0 Kind.sync)]) := by
  intro h
  exact h "x" [] (by decide) rfl

/-- Claim C2, amended: in every reachable emitter state, every event name
present in the registry maps to a non-empty callback list, except events on
which an `off` call (directly or from inside a callback) failed while the
event was absent — such a call autovivifies and leaves behind an empty
list for that event. -/
theorem claim_C2 (ops : List Op) (e : String) (l : List Cb)
    (hev : (runOps ops).events e = some l) (hnil : l = []) :
    e ∈ (runOps ops).offFailedAbsent :=
  flagged_foldl ops EventEmitter.init
    (fun e2 l2 h2 _ => by simp [EventEmitter.init] at h2) e l hev hnil

theorem claim_C2_witness :
    "x" ∈ (runOps [Op.off "x" (Cb.base 0 Kind.sync)]).offFailedAbsent :=
  claim_C2 [Op.off "x" (Cb.base 0 Kind.sync)] "x" [] (by decide) rfl

/-- Claim C5: `off(E, cb)` raises (a `ValueError`, surfaced to the caller
as the `Except.error` result and never caught inside the emitter) exactly
when `E` is not a registered event or `cb` is not present in `E`'s
callback list. -/
theorem claim_C5 (s : EmitterState) (e : String) (cb : Cb) :
    (EventEmitter.off s e cb).2 = Except.error () ↔
      (s.events e = none ∨ cb ∉ (s.events e).getD []) := by
  unfold EventEmitter.off
  cases hev : s.events e with
  | none => simp
  | some l =>
    by_cases hmem : cb ∈ l
    · simp only [hmem, if_true]
      split <;> simp [hmem]
    · simp [hmem]

/-- Claim C6: for a registered event `E` whose list contains `cb`,
`off(E, cb)` removes exactly the first occurrence of `cb` (everything else
keeps its relative order), deletes the key `E` if and only if the removal
empties the list, leaves every other event untouched, and returns the
emitter itself. -/
theorem claim_C6 (s : EmitterState) (e : String) (cb : Cb) (l : List Cb)
    (hev : s.events e = some l) (hmem : cb ∈ l) :
    ∃ l1 l2, cb ∉ l1 ∧ l = l1 ++ cb :: l2 ∧
      (EventEmitter.off s e cb).2 = Except.ok PyRet.self ∧
      ((EventEmitter.off s e cb).1.events e =
        if l1 ++ l2 = [] then none else some (l1 ++ l2)) ∧
      (∀ e2, e2 ≠ e → (EventEmitter.off s e cb).1.events e2 = s.events e2) := by
  obtain ⟨l1, l2, hn, hsplit, herase⟩ := List.exists_erase_eq hmem
  have hoff : EventEmitter.off s e cb =
      (if l1 ++ l2 = [] then ({ s with events := delk s.events e }, Except.ok PyRet.self)
       else ({ s with events := setk s.events e (l1 ++ l2) }, Except.ok PyRet.self)) := by
    unfold EventEmitter.off
    rw [hev]
    dsimp only
    rw [if_pos hmem, herase]
  refine ⟨l1, l2, hn, hsplit, ?_, ?_, ?_⟩
  · rw [hoff]; split <;> rfl
  · rw [hoff]; split
    · rename_i hnil; simp [hnil, delk_self]
    · rename_i hnil; simp [hnil, setk_self]
  · intro e2 he2
    rw [hoff]; split
    · simp [delk_ne _ _ he2]
    · simp [setk_ne _ _ _ he2]

theorem claim_C6_witness :
    ∃ l1 l2, (Cb.base 1 Kind.sync) ∉ l1 ∧
      [Cb.base 1 Kind.sync] = l1 ++ Cb.base 1 Kind.sync :: l2 ∧
      (EventEmitter.off (runOps [Op.on "e" (Cb.base 1 Kind.sync)]) "e"
        (Cb.base 1 Kind.sync)).2 = Except.ok PyRet.self ∧
      ((EventEmitter.off (runOps [Op.on "e" (Cb.base 1 Kind.sync)]) "e"
        (Cb.base 1 Kind.sync)).1.events "e" =
        if l1 ++ l2 = [] then none else some (l1 ++ l2)) ∧
      (∀ e2, e2 ≠ "e" →
        (EventEmitter.off (runOps [Op.on "e" (Cb.base 1 Kind.sync)]) "e"
          (Cb.base 1 Kind.sync)).1.events e2 =
          (runOps [Op.on "e" (Cb.base 1 Kind.sync)]).events e2) :=
  claim_C6 (runOps [Op.on "e" (Cb.base 1 Kind.sync)]) "e" (Cb.base 1 Kind.sync)
    [Cb.base 1 Kind.sync] (by decide) (by decide)

theorem emitStep_syncRaise_trace (s : EmitterState) (args : Args) (i : Nat) :
    (EventEmitter.emitStep s args (Cb.base i Kind.syncRaise)).trace =
      s.trace ++ [TE.dispatch i args, TE.call i args, TE.run i args, TE.logged i] := by
  simp [EventEmitter.emitStep, EventEmitter.callCb, iscoroutinefunction, Cb.id]

theorem emitList_trace_mono (cbs : List Cb) (s : EmitterState) (args : Args)
    (x : TE) (hx : x ∈ s.trace) :
    x ∈ (EventEmitter.emitList s cbs args).trace := by
  obtain ⟨t, ht, _, _, _⟩ := emitList_spec cbs s args
  rw [ht]
  exact List.mem_append_left _ hx

/-- Claim C8: a synchronous callback that raises during an `emit` pass is
caught at the emitter boundary: its diagnostic trace is logged
(`TE.logged`), every other callback of the snapshot is still dispatched in
order, and nothing propagates to `emit`'s caller (`emit` is a total
function). -/
theorem claim_C8 (s : EmitterState) (e : String) (args : Args) (pre : List Cb)
    (i : Nat) (post : List Cb)
    (hev : s.events e = some (pre ++ Cb.base i Kind.syncRaise :: post)) :
    TE.logged i ∈ (EventEmitter.emit s e args).trace ∧
    dispatches (EventEmitter.emit s e args).trace =
      dispatches s.trace ++
        (pre ++ Cb.base i Kind.syncRaise :: post).map (fun cb => (cb.id, args)) := by
  constructor
  · rw [emit_mem s e args _ hev]
    have hsplit : EventEmitter.emitList s (pre ++ Cb.base i Kind.syncRaise :: post) args =
        EventEmitter.emitList
          (EventEmitter.emitStep (EventEmitter.emitList s pre args) args
            (Cb.base i Kind.syncRaise)) post args := by
      unfold EventEmitter.emitList
      rw [List.foldl_append]
      rfl
    rw [hsplit]
    apply emitList_trace_mono
    rw [emitStep_syncRaise_trace]
    simp
  · rw [emit_mem s e args _ hev]
    obtain ⟨t, ht, hd, _, _⟩ := emitList_spec _ s args
    rw [ht, dispatches_append, hd]

theorem claim_C8_witness :
    TE.logged 1 ∈ (EventEmitter.emit (runOps [Op.on "e" (Cb.base 1 Kind.syncRaise),
        Op.on "e" (Cb.base 2 Kind.sync)]) "e" [5]).trace ∧
    dispatches (EventEmitter.emit (runOps [Op.on "e" (Cb.base 1 Kind.syncRaise),
        Op.on "e" (Cb.base 2 Kind.sync)]) "e" [5]).trace =
      dispatches (runOps [Op.on "e" (Cb.base 1 Kind.syncRaise),
        Op.on "e" (Cb.base 2 Kind.sync)]).trace ++
        ([] ++ Cb.base 1 Kind.syncRaise :: [Cb.base 2 Kind.sync]).map
          (fun cb : Cb => (cb.id, ([5] : Args))) :=
  claim_C8 (runOps [Op.on "e" (Cb.base 1 Kind.syncRaise),
    Op.on "e" (Cb.base 2 Kind.sync)]) "e" [5] [] 1 [Cb.base 2 Kind.sync] (by decide)

/-- Claim C7: `emit` iterates a shallow copy of the callback list taken
before any callback runs, so which callbacks the current pass dispatches
(and with which arguments) is fully determined by the registry at the
moment of the call, whatever the callbacks mutate; in particular a
callback that calls `off` on itself is still followed by the rest of the
snapshot in the same pass, and only future `emit` calls are affected: it
is no longer registered afterwards. -/
theorem claim_C7 (s : EmitterState) (e : String) (args : Args) :
    (dispatches (EventEmitter.emit s e args).trace =
      dispatches s.trace ++
        ((s.events e).getD []).map (fun cb => (cb.id, args))) ∧
    (∀ pre cid post,
      s.events e = some (pre ++ Cb.base cid (Kind.offSelf e) :: post) →
      (∀ x ∈ pre, x.isBase = true) →
      Cb.base cid (Kind.offSelf e) ∉ pre →
      Cb.base cid (Kind.offSelf e) ∉ post →
      Cb.base cid (Kind.offSelf e) ∉
        ((EventEmitter.emit s e args).events e).getD []) := by
  constructor
  · cases hev : s.events e with
    | none => rw [emit_not_mem s e args hev]; simp
    | some l =>
      rw [emit_mem s e args l hev]
      obtain ⟨t, ht, hd, _, _⟩ := emitList_spec l s args
      rw [ht, dispatches_append, hd]
      simp
  · intro pre cid post hev hbase hnpre hnpost
    have hcount1 : cnt (Cb.base cid (Kind.offSelf e)) e s = 1 := by
      simp only [cnt, hev, Option.getD_some, List.count_append, List.count_cons_self]
      rw [List.count_eq_zero_of_not_mem hnpre, List.count_eq_zero_of_not_mem hnpost]
    have hzero : cnt (Cb.base cid (Kind.offSelf e)) e (EventEmitter.emit s e args) = 0 := by
      rw [emit_mem s e args _ hev]
      have hsplit :
          EventEmitter.emitList s (pre ++ Cb.base cid (Kind.offSelf e) :: post) args =
          EventEmitter.emitList
            (EventEmitter.emitStep (EventEmitter.emitList s pre args) args
              (Cb.base cid (Kind.offSelf e))) post args := by
        unfold EventEmitter.emitList
        rw [List.foldl_append]
        rfl
      rw [hsplit]
      have hpre : cnt (Cb.base cid (Kind.offSelf e)) e (EventEmitter.emitList s pre args) = 1 := by
        rw [emitList_cnt_eq_base pre s args (Cb.base cid (Kind.offSelf e)) e hbase
          (fun x hx hxc => hnpre (hxc ▸ hx))]
        exact hcount1
      have hstep := emitStep_cnt_offSelf_zero cid e (EventEmitter.emitList s pre args) args hpre
      have hle := emitList_cnt_le post
        (EventEmitter.emitStep (EventEmitter.emitList s pre args) args
          (Cb.base cid (Kind.offSelf e))) args (Cb.base cid (Kind.offSelf e)) e
      omega
    intro hmem
    have hpos : 0 < (((EventEmitter.emit s e args).events e).getD []).count
        (Cb.base cid (Kind.offSelf e)) := List.count_pos_iff.2 hmem
    simp only [cnt] at hzero
    omega

theorem claim_C7_witness :
    Cb.base 3 (Kind.offSelf "e") ∉
      ((EventEmitter.emit (runOps [Op.on "e" (Cb.base 3 (Kind.offSelf "e")),
        Op.on "e" (Cb.base 4 Kind.sync)]) "e" [7]).events "e").getD [] :=
  (claim_C7 (runOps [Op.on "e" (Cb.base 3 (Kind.offSelf "e")),
    Op.on "e" (Cb.base 4 Kind.sync)]) "e" [7]).2 [] 3 [Cb.base 4 Kind.sync]
    (by decide) (by decide) (by decide) (by decide)

/-- Claim C9: the in-flight task set is touched by nothing but `emit`'s
scheduling and task completion: `on`, `off` and `once` leave the pool and
the pending queue unchanged; `emit` adds exactly the task handles it
creates (the `scheduled` events of its own trace segment) and removes
none, so a scheduled task stays referenced after `emit` returns; and
driving a task to completion removes exactly that handle from the pool,
whether the body succeeded or failed. -/
theorem claim_C9 :
    (∀ (s : EmitterState) (e : String) (cb : Cb),
      (EventEmitter.«on» s e cb).1.taskPool = s.taskPool ∧
      (EventEmitter.«on» s e cb).1.pending = s.pending) ∧
    (∀ (s : EmitterState) (e : String) (cb : Cb),
      (EventEmitter.off s e cb).1.taskPool = s.taskPool ∧
      (EventEmitter.off s e cb).1.pending = s.pending) ∧
    (∀ (s : EmitterState) (e : String) (wid : Nat) (cb : Cb),
      (EventEmitter.once s e wid cb).1.taskPool = s.taskPool ∧
      (EventEmitter.once s e wid cb).1.pending = s.pending) ∧
    (∀ (s : EmitterState) (e : String) (args : Args),
      (EventEmitter.emit s e args).taskPool =
        s.taskPool ++
          scheduledIds ((EventEmitter.emit s e args).trace.drop s.trace.length) ∧
      ∃ p, (EventEmitter.emit s e args).pending = s.pending ++ p) ∧
    (∀ (s : EmitterState) (tid : Nat) (entry : Nat × Cb × Args),
      s.pending.find? (fun p => p.1 == tid) = some entry →
      (EventEmitter.runTask s tid).taskPool =
        s.taskPool.filter (fun t => t != tid) ∧
      (TE.taskDone tid ∈ (EventEmitter.runTask s tid).trace ∨
        TE.taskFailed tid ∈ (EventEmitter.runTask s tid).trace)) ∧
    (∀ (s : EmitterState) (tid : Nat),
      s.pending.find? (fun p => p.1 == tid) = none →
      EventEmitter.runTask s tid = s) := by
  refine ⟨?_, ?_, ?_, ?_, ?_, ?_⟩
  · intro s e cb
    simp [EventEmitter.«on»]
  · intro s e cb
    have h := off_frame s e cb
    exact ⟨h.2.1, h.2.2.1⟩
  · intro s e wid cb
    simp [EventEmitter.once, EventEmitter.«on»]
  · intro s e args
    cases hev : s.events e with
    | none =>
      rw [emit_not_mem s e args hev]
      simp [List.drop_length, scheduledIds_nil]
    | some l =>
      rw [emit_mem s e args l hev]
      obtain ⟨t, ht, _, hp, p, hpe⟩ := emitList_spec l s args
      constructor
      · rw [ht, hp, List.drop_left]
      · exact ⟨p, hpe⟩
  · intro s tid entry hf
    unfold EventEmitter.runTask
    rw [hf]
    rcases entry with ⟨t0, cb0, args0⟩
    cases cb0 with
    | base i k => cases k <;> simp
    | wrapper i e2 inner => simp
  · intro s tid hf
    unfold EventEmitter.runTask
    rw [hf]

theorem claim_C9_witness :
    EventEmitter.runTask EventEmitter.init 0 = EventEmitter.init ∧
    (EventEmitter.runTask (runOps [Op.on "e" (Cb.base 2 Kind.async),
        Op.emit "e" []]) 0).taskPool =
      (runOps [Op.on "e" (Cb.base 2 Kind.async),
        Op.emit "e" []]).taskPool.filter (fun t => t != 0) :=
  ⟨claim_C9.2.2.2.2.2 EventEmitter.init 0 (by decide),
   (claim_C9.2.2.2.2.1 (runOps [Op.on "e" (Cb.base 2 Kind.async), Op.emit "e" []])
      0 (0, Cb.base 2 Kind.async, []) (by decide)).1⟩

/-- Claim C10: when a coroutine-function callback `cb` is registered via
`once(E, cb)`, the registered `callback_off` wrapper is an ordinary
synchronous function, so `emit` takes its synchronous branch for it: no
background task is created (pool and pending queue unchanged, no
`scheduled` event), the coroutine object produced by the wrapper's call of
`cb` is never scheduled or awaited, and `cb`'s body never executes (no
`run` event): the first `emit` after such a `once` merely dispatches the
wrapper, calls it, and calls `cb` once to create the discarded coroutine
object. -/
theorem claim_C10 (s0 : EmitterState) (E : String) (wid cid : Nat) (k : Kind)
    (args : Args) (hev : s0.events E = none)
    (hco : iscoroutinefunction (Cb.base cid k) = true) :
    iscoroutinefunction (Cb.wrapper wid E (Cb.base cid k)) = false ∧
    (EventEmitter.emit (EventEmitter.once s0 E wid (Cb.base cid k)).1 E args).taskPool =
      (EventEmitter.once s0 E wid (Cb.base cid k)).1.taskPool ∧
    (EventEmitter.emit (EventEmitter.once s0 E wid (Cb.base cid k)).1 E args).pending =
      (EventEmitter.once s0 E wid (Cb.base cid k)).1.pending ∧
    (EventEmitter.emit (EventEmitter.once s0 E wid (Cb.base cid k)).1 E args).trace =
      s0.trace ++ [TE.dispatch wid args, TE.call wid args, TE.call cid args] := by
  cases k with
  | async =>
    refine ⟨rfl, ?_, ?_, ?_⟩ <;>
      simp [EventEmitter.once, EventEmitter.«on», EventEmitter.emit,
        EventEmitter.emitList, EventEmitter.emitStep, EventEmitter.callCb,
        EventEmitter.off, hev, setk, delk, iscoroutinefunction, Cb.id]
  | asyncRaise =>
    refine ⟨rfl, ?_, ?_, ?_⟩ <;>
      simp [EventEmitter.once, EventEmitter.«on», EventEmitter.emit,
        EventEmitter.emitList, EventEmitter.emitStep, EventEmitter.callCb,
        EventEmitter.off, hev, setk, delk, iscoroutinefunction, Cb.id]
  | sync => simp [iscoroutinefunction] at hco
  | syncRaise => simp [iscoroutinefunction] at hco
  | offSelf e3 => simp [iscoroutinefunction] at hco

theorem claim_C10_witness :
    iscoroutinefunction (Cb.wrapper 9 "e" (Cb.base 5 Kind.async)) = false ∧
    (EventEmitter.emit (EventEmitter.once EventEmitter.init "e" 9
        (Cb.base 5 Kind.async)).1 "e" [2]).taskPool =
      (EventEmitter.once EventEmitter.init "e" 9 (Cb.base 5 Kind.async)).1.taskPool ∧
    (EventEmitter.emit (EventEmitter.once EventEmitter.init "e" 9
        (Cb.base 5 Kind.async)).1 "e" [2]).pending =
      (EventEmitter.once EventEmitter.init "e" 9 (Cb.base 5 Kind.async)).1.pending ∧
    (EventEmitter.emit (EventEmitter.once EventEmitter.init "e" 9
        (Cb.base 5 Kind.async)).1 "e" [2]).trace =
      EventEmitter.init.trace ++ [TE.dispatch 9 [2], TE.call 9 [2], TE.call 5 [2]] :=
  claim_C10 EventEmitter.init "e" 9 5 Kind.async [2] (by decide) (by decide)

/-- Claim C4 counterexample: an exception inside a scheduled asynchronous
callback is NOT captured and logged by the emitter: in the concrete run
below the background task fails (`TE.taskFailed`) yet the whole trace
contains no emitter-side `TE.logged` event — `traceback.print_exc` in
`emit` only ever fires for the synchronous in-line branch, which has long
returned by the time the coroutine body runs. -/
theorem claim_C4_counterexample :
    TE.taskFailed 0 ∈ (runOps [Op.on "e" (Cb.base 7 Kind.asyncRaise),
      Op.emit "e" [1], Op.runTask 0]).trace ∧
    loggedCount (runOps [Op.on "e" (Cb.base 7 Kind.asyncRaise),
      Op.emit "e" [1], Op.runTask 0]).trace = 0 := by
  decide

/-- Claim C4, amended: an exception raised inside a background task is
confined to the task object rather than propagated — the task completes as
failed, its handle is discarded from the pool, and the emitter logs
nothing for it (logging such failures is left to the async runtime's
unretrieved-exception handling, not done by the emitter); `emit` itself
never fails because of an asynchronous callback's internal error: for a
coroutine-function callback it only dispatches, calls (creating the
coroutine) and schedules, producing no `logged` event and raising
nothing. -/
theorem claim_C4 :
    (∀ (s : EmitterState) (tid i : Nat) (args : Args),
      s.pending.find? (fun p => p.1 == tid) =
          some (tid, Cb.base i Kind.asyncRaise, args) →
      (EventEmitter.runTask s tid).trace =
        s.trace ++ [TE.run i args, TE.taskFailed tid] ∧
      (EventEmitter.runTask s tid).taskPool =
        s.taskPool.filter (fun t => t != tid) ∧
      loggedCount (EventEmitter.runTask s tid).trace = loggedCount s.trace) ∧
    (∀ (s : EmitterState) (args : Args) (i : Nat) (k : Kind),
      iscoroutinefunction (Cb.base i k) = true →
      (EventEmitter.emitStep s args (Cb.base i k)).trace =
        s.trace ++ [TE.dispatch i args, TE.call i args,
          TE.scheduled s.nextTask i args] ∧
      loggedCount (EventEmitter.emitStep s args (Cb.base i k)).trace =
        loggedCount s.trace) := by
  constructor
  · intro s tid i args hf
    unfold EventEmitter.runTask
    rw [hf]
    refine ⟨rfl, rfl, ?_⟩
    simp [loggedCount_append, loggedCount_cons, loggedCount_nil]
  · intro s args i k hco
    cases k with
    | async =>
      constructor
      · simp [EventEmitter.emitStep, EventEmitter.callCb, iscoroutinefunction, Cb.id]
      · simp [EventEmitter.emitStep, EventEmitter.callCb, iscoroutinefunction, Cb.id,
          loggedCount_append, loggedCount_cons, loggedCount_nil]
    | asyncRaise =>
      constructor
      · simp [EventEmitter.emitStep, EventEmitter.callCb, iscoroutinefunction, Cb.id]
      · simp [EventEmitter.emitStep, EventEmitter.callCb, iscoroutinefunction, Cb.id,
          loggedCount_append, loggedCount_cons, loggedCount_nil]
    | sync => simp [iscoroutinefunction] at hco
    | syncRaise => simp [iscoroutinefunction] at hco
    | offSelf e3 => simp [iscoroutinefunction] at hco

theorem claim_C4_witness :
    (EventEmitter.runTask (runOps [Op.on "e" (Cb.base 7 Kind.asyncRaise),
        Op.emit "e" [1]]) 0).trace =
      (runOps [Op.on "e" (Cb.base 7 Kind.asyncRaise), Op.emit "e" [1]]).trace ++
        [TE.run 7 [1], TE.taskFailed 0] ∧
    loggedCount (EventEmitter.runTask (runOps [Op.on "e" (Cb.base 7 Kind.asyncRaise),
        Op.emit "e" [1]]) 0).trace =
      loggedCount (runOps [Op.on "e" (Cb.base 7 Kind.asyncRaise),
        Op.emit "e" [1]]).trace :=
  ⟨(claim_C4.1 (runOps [Op.on "e" (Cb.base 7 Kind.asyncRaise), Op.emit "e" [1]])
      0 7 [1] (by decide)).1,
   (claim_C4.1 (runOps [Op.on "e" (Cb.base 7 Kind.asyncRaise), Op.emit "e" [1]])
      0 7 [1] (by decide)).2.2⟩

/-- Claim C3: `once(E, cb)` registers a wrapper that, on its first
invocation, deregisters itself from `E` before delegating to `cb` with the
same arguments and returning `cb`'s call result; consequently `once(E, cb)`
followed by two `emit(E)` calls (single-threaded) calls `cb` exactly once,
and `once` never fails — it is total and returns the emitter itself. -/
theorem claim_C3 (s0 : EmitterState) (E : String) (wid cid : Nat) (k : Kind)
    (args1 args2 : Args) (hev : s0.events E = none) (hne : wid ≠ cid) :
    (EventEmitter.once s0 E wid (Cb.base cid k)).2 = PyRet.self ∧
    callsOf cid (EventEmitter.emit (EventEmitter.emit
        (EventEmitter.once s0 E wid (Cb.base cid k)).1 E args1) E args2).trace =
      callsOf cid s0.trace + 1 ∧
    Cb.wrapper wid E (Cb.base cid k) ∉
      ((EventEmitter.emit (EventEmitter.once s0 E wid (Cb.base cid k)).1
        E args1).events E).getD [] ∧
    (EventEmitter.callCb (EventEmitter.once s0 E wid (Cb.base cid k)).1
        (Cb.wrapper wid E (Cb.base cid k)) args1).2 =
      (EventEmitter.callCb
        (EventEmitter.off (EventEmitter.once s0 E wid (Cb.base cid k)).1 E
          (Cb.wrapper wid E (Cb.base cid k))).1 (Cb.base cid k) args1).2 := by
  cases k with
  | sync =>
    refine ⟨rfl, ?_, ?_, ?_⟩ <;>
      simp [EventEmitter.once, EventEmitter.«on», EventEmitter.emit,
        EventEmitter.emitList, EventEmitter.emitStep, EventEmitter.callCb,
        EventEmitter.off, hev, setk, delk, iscoroutinefunction, Cb.id,
        callsOf_append, callsOf_cons, callsOf_nil, hne]
  | syncRaise =>
    refine ⟨rfl, ?_, ?_, ?_⟩ <;>
      simp [EventEmitter.once, EventEmitter.«on», EventEmitter.emit,
        EventEmitter.emitList, EventEmitter.emitStep, EventEmitter.callCb,
        EventEmitter.off, hev, setk, delk, iscoroutinefunction, Cb.id,
        callsOf_append, callsOf_cons, callsOf_nil, hne]
  | async =>
    refine ⟨rfl, ?_, ?_, ?_⟩ <;>
      simp [EventEmitter.once, EventEmitter.«on», EventEmitter.emit,
        EventEmitter.emitList, EventEmitter.emitStep, EventEmitter.callCb,
        EventEmitter.off, hev, setk, delk, iscoroutinefunction, Cb.id,
        callsOf_append, callsOf_cons, callsOf_nil, hne]
  | asyncRaise =>
    refine ⟨rfl, ?_, ?_, ?_⟩ <;>
      simp [EventEmitter.once, EventEmitter.«on», EventEmitter.emit,
        EventEmitter.emitList, EventEmitter.emitStep, EventEmitter.callCb,
        EventEmitter.off, hev, setk, delk, iscoroutinefunction, Cb.id,
        callsOf_append, callsOf_cons, callsOf_nil, hne]
  | offSelf e3 =>
    by_cases he3 : e3 = E
    · subst he3
      refine ⟨rfl, ?_, ?_, ?_⟩ <;>
        simp [EventEmitter.once, EventEmitter.«on», EventEmitter.emit,
          EventEmitter.emitList, EventEmitter.emitStep, EventEmitter.callCb,
          EventEmitter.off, hev, setk, delk, iscoroutinefunction, Cb.id,
          callsOf_append, callsOf_cons, callsOf_nil, hne]
    · cases hs0 : s0.events e3 with
      | none =>
        refine ⟨rfl, ?_, ?_, ?_⟩ <;>
          simp [EventEmitter.once, EventEmitter.«on», EventEmitter.emit,
            EventEmitter.emitList, EventEmitter.emitStep, EventEmitter.callCb,
            EventEmitter.off, hev, hs0, setk, delk, iscoroutinefunction, Cb.id,
            callsOf_append, callsOf_cons, callsOf_nil, hne, he3, Ne.symm he3]
      | some l =>
        by_cases hmem : Cb.base cid (Kind.offSelf e3) ∈ l
        · by_cases hnil : l.erase (Cb.base cid (Kind.offSelf e3)) = []
          · refine ⟨rfl, ?_, ?_, ?_⟩ <;>
              simp [EventEmitter.once, EventEmitter.«on», EventEmitter.emit,
                EventEmitter.emitList, EventEmitter.emitStep, EventEmitter.callCb,
                EventEmitter.off, hev, hs0, hmem, hnil, setk, delk,
                iscoroutinefunction, Cb.id, callsOf_append, callsOf_cons,
                callsOf_nil, hne, he3, Ne.symm he3]
          · refine ⟨rfl, ?_, ?_, ?_⟩ <;>
              simp [EventEmitter.once, EventEmitter.«on», EventEmitter.emit,
                EventEmitter.emitList, EventEmitter.emitStep, EventEmitter.callCb,
                EventEmitter.off, hev, hs0, hmem, hnil, setk, delk,
                iscoroutinefunction, Cb.id, callsOf_append, callsOf_cons,
                callsOf_nil, hne, he3, Ne.symm he3]
        · refine ⟨rfl, ?_, ?_, ?_⟩ <;>
            simp [EventEmitter.once, EventEmitter.«on», EventEmitter.emit,
              EventEmitter.emitList, EventEmitter.emitStep, EventEmitter.callCb,
              EventEmitter.off, hev, hs0, hmem, setk, delk, iscoroutinefunction,
              Cb.id, callsOf_append, callsOf_cons, callsOf_nil, hne, he3,
              Ne.symm he3]

theorem claim_C3_witness :
    (EventEmitter.once EventEmitter.init "e" 9 (Cb.base 5 Kind.sync)).2 = PyRet.self ∧
    callsOf 5 (EventEmitter.emit (EventEmitter.emit
        (EventEmitter.once EventEmitter.init "e" 9 (Cb.base 5 Kind.sync)).1
        "e" [1]) "e" [2]).trace =
      callsOf 5 EventEmitter.init.trace + 1 ∧
    Cb.wrapper 9 "e" (Cb.base 5 Kind.sync) ∉
      ((EventEmitter.emit (EventEmitter.once EventEmitter.init "e" 9
        (Cb.base 5 Kind.sync)).1 "e" [1]).events "e").getD [] ∧
    (EventEmitter.callCb (EventEmitter.once EventEmitter.init "e" 9
        (Cb.base 5 Kind.sync)).1 (Cb.wrapper 9 "e" (Cb.base 5 Kind.sync)) [1]).2 =
      (EventEmitter.callCb
        (EventEmitter.off (EventEmitter.once EventEmitter.init "e" 9
          (Cb.base 5 Kind.sync)).1 "e" (Cb.wrapper 9 "e" (Cb.base 5 Kind.sync))).1
        (Cb.base 5 Kind.sync) [1]).2 :=
  claim_C3 EventEmitter.init "e" 9 5 Kind.sync [1] [2] (by decide) (by decide)
